import Mathlib

/-!
Shallow embedding of `crates/edit/src/icu.rs` (the ICU replacement layer of
the `edit` editor): encoding converter, case folding, and the dual-mode
search cursor (`Regex`), with its Full backend (regex crate) and Lite
backend (std substring search).

Texts and patterns are modelled as UTF-8 byte sequences (`List Nat`, each
element a byte value); byte-offset ranges are pairs `(start, stop)` of
half-open byte offsets, mirroring Rust `Range<usize>`.
-/

/-- Error value produced by `apperr::Error::new_icu(code)`; the `Converter`
constructor fails with code 16 (the legacy `UnsupportedEncoding` code). -/
inductive AppErr where
  | icu (code : Nat)
deriving DecidableEq

/-- Embeds `Converter::new` from `icu.rs`: construction succeeds exactly when
both the source and target encoding name is "UTF-8" or "UTF-8 BOM"; any other
pair fails with `apperr::Error::new_icu(16)`. The unused pivot buffer is not
modelled. -/
def Converter.new (sourceEncoding targetEncoding : String) : Except AppErr Unit :=
  if (sourceEncoding = "UTF-8" ∨ sourceEncoding = "UTF-8 BOM") ∧
      (targetEncoding = "UTF-8" ∨ targetEncoding = "UTF-8 BOM") then
    Except.ok ()
  else
    Except.error (AppErr.icu 16)

/-- Embeds `Converter::convert` from `icu.rs`: it copies
`min (input.length) (output.length)` bytes of `input` over the front of the
`output` buffer (the remaining bytes of `output` are untouched) and returns
`Ok (len, len)`; it never fails. The result carries the output buffer after
the copy together with the `(bytesConsumed, bytesProduced)` pair. -/
def Converter.convert (input output : List Nat) :
    Except AppErr (List Nat × Nat × Nat) :=
  let len := min input.length output.length
  Except.ok (input.take len ++ output.drop len, len, len)

/-- Interface to Rust `str::to_lowercase` as the Lite-mode search consumes it:
an external whole-string lowercase function on UTF-8 bytes, abstracted the
same way `FullRegex.inner` abstracts the compiled regex engine, bundled with
the one concrete value of it this development relies on — the empty string
lowercases to the empty string. -/
structure ToLowercase where
  apply : List Nat → List Nat
  empty_ok : apply [] = []

/-- Concrete `ToLowercase` instance for the witnesses: byte-wise ASCII
lowering, which agrees with `str::to_lowercase` on every ASCII byte sequence
the witnesses evaluate it on (`str::to_lowercase` lowercases ASCII text
byte-for-byte). -/
def asciiLowercase : ToLowercase where
  apply s := s.map (fun b => if 65 ≤ b ∧ b ≤ 90 then b + 32 else b)
  empty_ok := rfl

/-- External Unicode character data consumed by Rust `str::to_lowercase`: the
per-character lowercase mapping (`conversions::to_lower`, one to three
characters per character) and the `Case_Ignorable` and `Cased` properties
driving the capital-sigma special case. -/
structure LowerData where
  toLower : Char → List Char
  caseIgnorable : Char → Bool
  cased : Char → Bool

/-- Embeds `case_ignorable_then_cased` from the standard library's
`to_lowercase`: skip `Case_Ignorable` characters, then report whether the
first remaining character is `Cased`. -/
def caseIgnorableThenCased (D : LowerData) : List Char → Bool
  | [] => false
  | c :: rest =>
    if D.caseIgnorable c then caseIgnorableThenCased D rest else D.cased c

/-- Embeds `map_uppercase_sigma` from `str::to_lowercase`: capital sigma maps
to the final form `ς` exactly at the end of a word, to `σ` otherwise;
`revPre` is the reversed prefix before the sigma, `rest` the suffix after
it. -/
def mapUppercaseSigma (D : LowerData) (revPre rest : List Char) : List Char :=
  if caseIgnorableThenCased D revPre && ! caseIgnorableThenCased D rest then
    ['ς']
  else
    ['σ']

/-- Embeds the character loop of Rust `str::to_lowercase`: each capital sigma
is mapped by `mapUppercaseSigma` using its context, every other character by
the `to_lower` mapping; `revPre` accumulates the reversed prefix already
consumed. -/
def toLowercaseChars (D : LowerData) : List Char → List Char → List Char
  | _, [] => []
  | revPre, c :: rest =>
    (if c = 'Σ' then mapUppercaseSigma D revPre rest else D.toLower c) ++
      toLowercaseChars D (c :: revPre) rest

/-- Embeds `fold_case` from `icu.rs`: it returns `input.to_lowercase()`
(copied into an arena, which the model does not track), with the string as a
character sequence and the Unicode tables abstracted as `LowerData`. -/
def fold_case (D : LowerData) (input : List Char) : List Char :=
  toLowercaseChars D [] input

/-- Concrete `LowerData` instance for the idempotency witness: the real
Unicode lowercase entries for the letters of `HELLO` and for the sigmas,
identity elsewhere, with `Cased` true on basic letters and sigmas. -/
def lowerDataW : LowerData where
  toLower c :=
    if c = 'H' then ['h'] else if c = 'E' then ['e']
    else if c = 'L' then ['l'] else if c = 'O' then ['o']
    else if c = 'Σ' then ['σ'] else [c]
  caseIgnorable _ := false
  cased c := decide (('a' ≤ c ∧ c ≤ 'z') ∨ ('A' ≤ c ∧ c ≤ 'Z') ∨
    c = 'σ' ∨ c = 'ς' ∨ c = 'Σ')

/-- Model of Rust `str::is_char_boundary` on a UTF-8 byte sequence: true at
offset 0, at the end of the sequence, and at any byte that is not a UTF-8
continuation byte; false past the end and inside a multi-byte code point. -/
def isCharBoundary (text : List Nat) (i : Nat) : Bool :=
  if i = 0 then true
  else
    match text.get? i with
    | some b => decide (192 ≤ b) || decide (b < 128)
    | none => decide (i = text.length)

/-- True when `needle` occurs at the very front of `hay` (byte-wise). -/
def matchesAt : List Nat → List Nat → Bool
  | [], _ => true
  | _ :: _, [] => false
  | a :: as, b :: bs => a == b && matchesAt as bs

/-- Model of Rust `str::find` with a literal needle: the byte index of the
first occurrence of `needle` in `hay`, or `none`. An empty needle is found at
index 0, as in Rust. -/
def findSub (needle : List Nat) : List Nat → Option Nat
  | [] => if matchesAt needle [] then some 0 else none
  | b :: rest =>
    if matchesAt needle (b :: rest) then some 0
    else (findSub needle rest).map (fun i => i + 1)

-- ---------------------------------------------------------------------------
-- Lite mode (`#[cfg(not(feature = "regex"))] Regex` in icu.rs)
-- ---------------------------------------------------------------------------

/-- Embeds the Lite-mode `Regex` state: the stored pattern and text bytes, the
resume offset `last_idx`, and the `CASE_INSENSITIVE` flag, together with the
external `str::to_lowercase` function the case-insensitive branch calls
(`lower`, abstracted as `ToLowercase` the same way `FullRegex.inner`
abstracts the compiled regex engine). -/
structure LiteRegex where
  pattern : List Nat
  text : List Nat
  last_idx : Nat
  case_insensitive : Bool
  lower : ToLowercase

/-- Embeds Lite-mode `Regex::reset`: set the resume offset. -/
def Lite.reset (r : LiteRegex) (offset : Nat) : LiteRegex :=
  { r with last_idx := offset }

/-- Embeds Lite-mode `<Regex as Iterator>::next`. Returns `none` once
`last_idx > text.len()`; otherwise takes the slice `&self.text[self.last_idx..]`
— `Except.error ()` models the Rust panic of that slicing operation when
`last_idx` is not a char boundary of the text — then searches the slice for
the pattern (lowercasing both via `to_lowercase` when `CASE_INSENSITIVE` is
set), and on a hit at slice index `idx` reports
`(last_idx + idx, last_idx + idx + pattern.len())` and advances `last_idx` to
the reported end. -/
def Lite.next (r : LiteRegex) :
    Except Unit (Option (Nat × Nat) × LiteRegex) :=
  if r.text.length < r.last_idx then Except.ok (none, r)
  else if isCharBoundary r.text r.last_idx then
    match
      (if r.case_insensitive then
        findSub (r.lower.apply r.pattern)
          (r.lower.apply (r.text.drop r.last_idx))
      else
        findSub r.pattern (r.text.drop r.last_idx)) with
    | some idx =>
      Except.ok
        (some (r.last_idx + idx, r.last_idx + idx + r.pattern.length),
          { r with last_idx := r.last_idx + idx + r.pattern.length })
    | none => Except.ok (none, r)
  else Except.error ()

-- ---------------------------------------------------------------------------
-- Full mode (`#[cfg(feature = "regex")] Regex` in icu.rs)
-- ---------------------------------------------------------------------------

/-- Embeds the Full-mode `Regex` state. `inner` models the compiled
`regex::Regex` through its one operation the code uses,
`captures_at(haystack, start)`: given the text and a start offset it returns
`none` (no match at or after `start`) or the whole-match byte range — group 0,
which in the regex crate always participates, hence is not optional — paired
with the ranges of capture groups `1..`, `none` standing for a group that did
not participate. `text` is the cursor's private copy of the snapshot text,
`last_idx` the resume offset, `captures` the stored ranges of the most recent
match. -/
structure FullRegex where
  inner : List Nat → Nat → Option ((Nat × Nat) × List (Option (Nat × Nat)))
  text : List Nat
  last_idx : Nat
  captures : Option (List (Nat × Nat))

/-- Embeds Full-mode `Regex::reset`: set the resume offset and discard the
stored captures. -/
def Full.reset (r : FullRegex) (offset : Nat) : FullRegex :=
  { r with last_idx := offset, captures := none }

/-- Embeds Full-mode `<Regex as Iterator>::next`: return `none` once
`last_idx > text.len()`; otherwise run `captures_at(&text, last_idx)`. On a
match, store group 0 followed by every further group's range (`0..0` for a
group that did not participate), advance `last_idx` to the match end — or to
the match end plus one raw byte when the match is zero-length — and return the
whole-match range. -/
def Full.next (r : FullRegex) : Option (Nat × Nat) × FullRegex :=
  if r.text.length < r.last_idx then (none, r)
  else
    match r.inner r.text r.last_idx with
    | some (m0, gs) =>
      (some m0,
        { r with
          captures := some (m0 :: gs.map (fun g => g.getD (0, 0))),
          last_idx := if m0.1 = m0.2 then m0.2 + 1 else m0.2 })
    | none => (none, r)

/-- Model of the Rust `as usize` cast applied to an `i32` group index:
reduction modulo `2 ^ 64` (a negative index becomes a huge offset). -/
def i32ToUsize (g : Int) : Nat :=
  (g % (2 ^ 64)).toNat

/-- Embeds Full-mode `Regex::group`: `caps.get(group as usize)` of the stored
captures, or `none` when no match has been recorded. -/
def Full.group (r : FullRegex) (g : Int) : Option (Nat × Nat) :=
  match r.captures with
  | some caps => caps.get? (i32ToUsize g)
  | none => none

/-- Number of leading bytes equal to `a` (0x61) in a byte sequence. -/
def aRun : List Nat → Nat
  | [] => 0
  | b :: rest => if b = 97 then aRun rest + 1 else 0

/-- Models the matcher the regex crate compiles from the pattern `a*` (no
flags): `captures_at(text, start)` with `start ≤ text.len()` returns the
leftmost-first match, which for `a*` starts exactly at `start` and greedily
spans the run of `a` bytes there; the pattern has no capture groups beyond
group 0. -/
def aStarCapturesAt (text : List Nat) (start : Nat) :
    Option ((Nat × Nat) × List (Option (Nat × Nat))) :=
  if start ≤ text.length then
    some ((start, start + aRun (text.drop start)), [])
  else
    none

/-- Full-mode cursor for pattern `a*` over the text `ba`, resume offset 0. -/
def aStarBA : FullRegex :=
  { inner := aStarCapturesAt, text := [98, 97], last_idx := 0, captures := none }

/-- Full-mode cursor for pattern `a*` over the two-byte text `é`
(UTF-8 bytes 0xC3 0xA9), resume offset 0. -/
def aStarEacute : FullRegex :=
  { inner := aStarCapturesAt, text := [195, 169], last_idx := 0, captures := none }

/-- Iterate `Full.next` a given number of times, collecting each call's
result. -/
def Full.run : Nat → FullRegex → List (Option (Nat × Nat)) × FullRegex
  | 0, r => ([], r)
  | n + 1, r =>
    let p := Full.next r
    let q := Full.run n p.2
    (p.1 :: q.1, q.2)

/-- Lite-mode cursor for pattern `CAT` with `CASE_INSENSITIVE` over the text
`a Cat sat`, resume offset 0. -/
def liteCat : LiteRegex :=
  { pattern := [67, 65, 84], text := [97, 32, 67, 97, 116, 32, 115, 97, 116],
    last_idx := 0, case_insensitive := true, lower := asciiLowercase }

/-- Lite-mode cursor for pattern `a` over the two-byte text `é`, with resume
offset 1 — a byte offset that is at most the text length but lies inside the
two-byte code point. -/
def liteBadOffset : LiteRegex :=
  { pattern := [97], text := [195, 169], last_idx := 1,
    case_insensitive := false, lower := asciiLowercase }

/-- Lite-mode cursor for the empty pattern over the two-byte text `é`, with
resume offset 1 (inside the code point). -/
def liteEmptyBad : LiteRegex :=
  { pattern := [], text := [195, 169], last_idx := 1,
    case_insensitive := false, lower := asciiLowercase }

-- ---------------------------------------------------------------------------
-- Helper lemmas
-- ---------------------------------------------------------------------------

/-- Rust `str::find` with an empty needle returns index 0 on any haystack. -/
theorem findSub_empty (hay : List Nat) : findSub [] hay = some 0 := by
  cases hay <;> rfl

/-- Inversion of `Full.next` on a successful match: the guard passed, the
matcher reported the returned range, and the new state stores the groups and
advances the resume offset by the source's rule. -/
theorem Full.next_some (r : FullRegex) (s e : Nat) (r' : FullRegex)
    (h : Full.next r = (some (s, e), r')) :
    r.last_idx ≤ r.text.length ∧
    ∃ gs, r.inner r.text r.last_idx = some ((s, e), gs) ∧
      r' = { r with
              captures := some ((s, e) :: gs.map (fun g => g.getD (0, 0))),
              last_idx := if s = e then e + 1 else e } := by
  unfold Full.next at h
  split at h
  · simp at h
  · next hlt =>
    split at h
    · next m0 gs hinner =>
      injection h with h1 h2
      injection h1 with h1
      subst h1
      exact ⟨Nat.le_of_not_lt hlt, gs, hinner, h2.symm⟩
    · simp at h

-- ---------------------------------------------------------------------------
-- Claims
-- ---------------------------------------------------------------------------

/-- Claim C3: in Full mode, the cursor for pattern `a*` over `ba` starting at
offset 0 yields exactly the matches `[0,0)`, `[1,2)`, `[2,2)` in that order
and then end-of-sequence; no offset is repeated across the zero-length
matches. -/
theorem c3_full_a_star_over_ba :
    (Full.run 4 aStarBA).1 = [some (0, 0), some (1, 2), some (2, 2), none] := rfl

/-- Claim C1, counterexample: in Full mode, pattern `a*` over the one-code-point
text `é` (bytes 0xC3 0xA9) produces the zero-width match `[0,0)`, after which
the forced advance sets the resume offset to 1 — a byte offset that is not a
UTF-8 code-point boundary of the cursor's text. The advance is a raw byte
increment, not rounded up to a boundary. -/
theorem c1_counterexample :
    (Full.next aStarEacute).1 = some (0, 0) ∧
    (Full.next aStarEacute).2.last_idx = 1 ∧
    isCharBoundary (Full.next aStarEacute).2.text 1 = false :=
  ⟨rfl, rfl, rfl⟩

/-- Claim C1, amended: in Full mode, after a zero-length match `next()` forces
the resume offset to exactly the match end plus one raw byte — guaranteeing
forward progress past the old resume offset when the match starts at or after
it — but this raw increment is not rounded up to a UTF-8 code-point boundary
and may land inside a multi-byte code point. -/
theorem c1_zero_width_raw_advance (r : FullRegex) (s e : Nat) (r' : FullRegex)
    (h : Full.next r = (some (s, e), r')) (hzw : s = e)
    (hstart : r.last_idx ≤ s) :
    r'.last_idx = e + 1 ∧ r.last_idx < r'.last_idx := by
  obtain ⟨-, gs, -, rfl⟩ := Full.next_some r s e r' h
  refine ⟨?_, ?_⟩
  all_goals simp only [if_pos hzw]
  omega

/-- Witness for `c1_zero_width_raw_advance` at the cursor for `a*` over
`ba`. -/
theorem c1_witness :
    (Full.next aStarBA).2.last_idx = 0 + 1 ∧
    aStarBA.last_idx < (Full.next aStarBA).2.last_idx :=
  c1_zero_width_raw_advance aStarBA 0 0 (Full.next aStarBA).2 rfl rfl
    (by decide)

/-- Claim C2, counterexample: in Lite mode a resume offset of 1 over the
two-byte text `é` is at most the text length, yet `next()` neither returns a
match nor signals end-of-sequence — it panics (modelled by `Except.error`)
when slicing the text at a non-boundary offset. -/
theorem c2_counterexample :
    liteBadOffset.last_idx ≤ liteBadOffset.text.length ∧
    Lite.next liteBadOffset = Except.error () :=
  ⟨by decide, rfl⟩

/-- Claim C2, amended: both backends signal end-of-sequence whenever the
resume offset strictly exceeds the text length; any match either backend
returns starts at or after the resume offset (for Full mode, under the regex
guarantee that `captures_at` reports a match starting at or after its start
argument); and Lite-mode `next()` is total whenever the resume offset is a
UTF-8 char boundary of the text — but not in general: at a non-boundary
resume offset that is at most the text length, Lite mode panics at the slice
operation instead of returning. -/
theorem c2_next_totality :
    (∀ r : FullRegex, r.text.length < r.last_idx → (Full.next r).1 = none) ∧
    (∀ r : LiteRegex, r.text.length < r.last_idx →
      Lite.next r = Except.ok (none, r)) ∧
    (∀ r : LiteRegex, isCharBoundary r.text r.last_idx = true →
      ∃ out, Lite.next r = Except.ok out) ∧
    (∀ (r : FullRegex) (s e : Nat) (r' : FullRegex),
      (∀ u v gs, r.inner r.text r.last_idx = some ((u, v), gs) → r.last_idx ≤ u) →
      Full.next r = (some (s, e), r') → r.last_idx ≤ s) ∧
    (∀ (r : LiteRegex) (s e : Nat) (r' : LiteRegex),
      Lite.next r = Except.ok (some (s, e), r') → r.last_idx ≤ s) := by
  refine ⟨?_, ?_, ?_, ?_, ?_⟩
  · intro r h
    unfold Full.next
    rw [if_pos h]
  · intro r h
    unfold Lite.next
    rw [if_pos h]
  · intro r hb
    unfold Lite.next
    split
    · exact ⟨_, rfl⟩
    · split
      · exact ⟨_, rfl⟩
      · exact ⟨_, rfl⟩
  · intro r s e r' hwf h
    obtain ⟨-, gs, hinner, -⟩ := Full.next_some r s e r' h
    exact hwf s e gs hinner
  · intro r s e r' h
    unfold Lite.next at h
    split at h
    · injection h with h; injection h with h1 h2; simp at h1
    · split at h
      · split at h
        · injection h with h
          injection h with h1 h2
          injection h1 with h1
          injection h1 with h1
          omega
        · injection h with h; injection h with h1 h2; simp at h1
      · exact absurd h (by simp)

/-- Witness for `c2_next_totality` at concrete cursors: a Full cursor past the
end of `ba`, a Lite cursor past the end of `ba`, the Lite `CAT` cursor at a
boundary offset, the `a*` cursor's first match, and the `CAT` cursor's
match. -/
theorem c2_witness :
    (Full.next { inner := aStarCapturesAt, text := [98, 97], last_idx := 3,
                  captures := none }).1 = none ∧
    Lite.next { pattern := [97], text := [98, 97], last_idx := 3,
                case_insensitive := false, lower := asciiLowercase }
      = Except.ok (none, { pattern := [97], text := [98, 97], last_idx := 3,
                            case_insensitive := false,
                            lower := asciiLowercase }) ∧
    (∃ out, Lite.next liteCat = Except.ok out) ∧
    aStarBA.last_idx ≤ 0 ∧
    liteCat.last_idx ≤ 2 :=
  ⟨c2_next_totality.1 _ (by decide),
   c2_next_totality.2.1 _ (by decide),
   c2_next_totality.2.2.1 liteCat (by decide),
   c2_next_totality.2.2.2.1 aStarBA 0 0 (Full.next aStarBA).2
     (by
       intro u v gs h
       have h2 : some ((0, 0), ([] : List (Option (Nat × Nat))))
           = some ((u, v), gs) := h
       injection h2 with h3
       injection h3 with h4 h5
       injection h4 with h6 h7
       have hz : aStarBA.last_idx = 0 := rfl
       omega)
     rfl,
   c2_next_totality.2.2.2.2 liteCat 2 5 { liteCat with last_idx := 5 } rfl⟩

/-- Claim C4: in Lite mode with `CASE_INSENSITIVE` set, `next()` lowercases
both the pattern and the remaining text with `str::to_lowercase` (the
cursor's abstracted `lower` function — the statement holds for every
lowercase function, in particular the real one): whenever the lowercased
pattern first occurs at index `idx` of the lowercased remaining text,
`next()` reports the match start as the resume offset plus `idx` — an offset
into the original text — and the match end as start plus the original
pattern's byte length, and advances the resume offset to that end. The
witness instantiates this with pattern `CAT` over `a Cat sat`, yielding the
range `[2,5)`. -/
theorem c4_lite_case_insensitive_search (r : LiteRegex) (idx : Nat)
    (hci : r.case_insensitive = true)
    (hle : r.last_idx ≤ r.text.length)
    (hb : isCharBoundary r.text r.last_idx = true)
    (hfind : findSub (r.lower.apply r.pattern)
        (r.lower.apply (r.text.drop r.last_idx)) = some idx) :
    Lite.next r
      = Except.ok
          (some (r.last_idx + idx, r.last_idx + idx + r.pattern.length),
            { r with last_idx := r.last_idx + idx + r.pattern.length }) := by
  unfold Lite.next
  rw [if_neg (Nat.not_lt.mpr hle), if_pos hb, if_pos hci, hfind]

/-- Witness for `c4_lite_case_insensitive_search`: pattern `CAT` with
`CASE_INSENSITIVE` over `a Cat sat` starting at offset 0 yields `[2,5)`. -/
theorem c4_witness :
    Lite.next liteCat
      = Except.ok (some (2, 5), { liteCat with last_idx := 5 }) :=
  c4_lite_case_insensitive_search liteCat 2 rfl (by decide) (by decide) rfl

/-- Claim C5: the resume offset is monotonically non-decreasing across
`next()` calls in both backends: in Full mode under the regex-crate guarantee
that `captures_at` reports a match range `[s,e)` with `start ≤ s ≤ e`, and in
Lite mode for every call that returns (rather than panics). -/
theorem c5_resume_offset_monotonic :
    (∀ r : FullRegex,
      (∀ s e gs, r.inner r.text r.last_idx = some ((s, e), gs) →
        r.last_idx ≤ s ∧ s ≤ e) →
      r.last_idx ≤ (Full.next r).2.last_idx) ∧
    (∀ (r : LiteRegex) (m : Option (Nat × Nat)) (r' : LiteRegex),
      Lite.next r = Except.ok (m, r') → r.last_idx ≤ r'.last_idx) := by
  constructor
  · intro r hwf
    unfold Full.next
    split
    · exact Nat.le_refl _
    · split
      · next m0 gs hinner =>
        obtain ⟨h1, h2⟩ := hwf m0.1 m0.2 gs hinner
        by_cases hz : m0.1 = m0.2
        · simp only [if_pos hz]
          omega
        · simp only [if_neg hz]
          omega
      · exact Nat.le_refl _
  · intro r m r' h
    unfold Lite.next at h
    split at h
    · injection h with h
      injection h with h1 h2
      rw [← h2]
    · split at h
      · split at h
        · injection h with h
          injection h with h1 h2
          rw [← h2]
          simp only []
          omega
        · injection h with h
          injection h with h1 h2
          rw [← h2]
      · exact absurd h (by simp)

/-- Witness for `c5_resume_offset_monotonic` at the `a*` cursor over `ba` and
the `CAT` cursor over `a Cat sat`. -/
theorem c5_witness :
    aStarBA.last_idx ≤ (Full.next aStarBA).2.last_idx ∧
    liteCat.last_idx ≤ ({ liteCat with last_idx := 5 } : LiteRegex).last_idx :=
  ⟨c5_resume_offset_monotonic.1 aStarBA
     (by
       intro s e gs h
       have h2 : some ((0, 0), ([] : List (Option (Nat × Nat))))
           = some ((s, e), gs) := h
       injection h2 with h3
       injection h3 with h4 h5
       injection h4 with h6 h7
       have hz : aStarBA.last_idx = 0 := rfl
       omega),
   c5_resume_offset_monotonic.2 liteCat (some (2, 5))
     { liteCat with last_idx := 5 } rfl⟩

/-- Claim C6: in Full mode, after any `next()` call that returns a match,
`group(0)` returns exactly the range that `next()` returned for that match. -/
theorem c6_group_zero_equals_match (r : FullRegex) (s e : Nat) (r' : FullRegex)
    (h : Full.next r = (some (s, e), r')) :
    Full.group r' 0 = some (s, e) := by
  obtain ⟨-, gs, -, rfl⟩ := Full.next_some r s e r' h
  rfl

/-- Witness for `c6_group_zero_equals_match` at the `a*` cursor over `ba`. -/
theorem c6_witness :
    Full.group (Full.next aStarBA).2 0 = some (0, 0) :=
  c6_group_zero_equals_match aStarBA 0 0 (Full.next aStarBA).2 rfl

/-- Claim C7: `Converter` construction succeeds exactly when both the source
and target encoding is UTF-8 or UTF-8-with-BOM, and for any other pair it
fails with the `UnsupportedEncoding` error carrying the legacy numeric code
16. -/
theorem c7_converter_encoding_check (s t : String) :
    ((s = "UTF-8" ∨ s = "UTF-8 BOM") ∧ (t = "UTF-8" ∨ t = "UTF-8 BOM") →
      Converter.new s t = Except.ok ()) ∧
    (¬ ((s = "UTF-8" ∨ s = "UTF-8 BOM") ∧ (t = "UTF-8" ∨ t = "UTF-8 BOM")) →
      Converter.new s t = Except.error (AppErr.icu 16)) := by
  constructor
  · intro h
    unfold Converter.new
    rw [if_pos h]
  · intro h
    unfold Converter.new
    rw [if_neg h]

/-- Witness for `c7_converter_encoding_check`: the UTF-8 to UTF-8-BOM pair
succeeds; the ASCII to UTF-8 pair fails with code 16. -/
theorem c7_witness :
    Converter.new "UTF-8" "UTF-8 BOM" = Except.ok () ∧
    Converter.new "ASCII" "UTF-8" = Except.error (AppErr.icu 16) :=
  ⟨(c7_converter_encoding_check "UTF-8" "UTF-8 BOM").1 (by decide),
   (c7_converter_encoding_check "ASCII" "UTF-8").2 (by decide)⟩

/-- Claim C8: `convert` never fails; it copies exactly
`min (input.length) (output.length)` bytes of `input` verbatim over the front
of the output buffer, leaves the rest of the buffer untouched, and returns
that length as both `bytesConsumed` and `bytesProduced`; in particular with an
output at least as long as the input, the buffer's first `input.length` bytes
equal `input` and the returned counts are `input.length`. -/
theorem c8_convert_copies (input output : List Nat) :
    Converter.convert input output
      = Except.ok
          (input.take (min input.length output.length) ++
              output.drop (min input.length output.length),
            min input.length output.length, min input.length output.length) ∧
    (input.length ≤ output.length →
      Converter.convert input output
        = Except.ok (input ++ output.drop input.length,
            input.length, input.length)) := by
  refine ⟨rfl, fun h => ?_⟩
  unfold Converter.convert
  dsimp only
  rw [min_eq_left h, List.take_length]

/-- Witness for `c8_convert_copies` at input `[1, 2, 3]` and a four-byte
output buffer. -/
theorem c8_witness :
    Converter.convert [1, 2, 3] [0, 0, 0, 0]
      = Except.ok ([1, 2, 3, 0], 3, 3) :=
  (c8_convert_copies [1, 2, 3] [0, 0, 0, 0]).2 (by decide)

/-- A list of characters that the lowercase mapping fixes — each maps to
exactly itself and none is capital sigma — is left unchanged by the
`to_lowercase` character loop, whatever prefix context it runs under. -/
theorem toLowercaseChars_fixed (D : LowerData) (l : List Char) :
    (∀ d ∈ l, D.toLower d = [d] ∧ d ≠ 'Σ') →
      ∀ revPre, toLowercaseChars D revPre l = l := by
  induction l with
  | nil => intro _ _; rfl
  | cons c rest ih =>
    intro hl revPre
    obtain ⟨hc1, hc2⟩ := hl c (by simp)
    unfold toLowercaseChars
    rw [if_neg hc2, hc1, ih (fun d hd => hl d (by simp [hd])) (c :: revPre)]
    rfl

/-- Under the contract of the Unicode lowercase data — every character a
lowercase mapping produces maps to itself and is never capital sigma, and the
two lowercase sigma forms map to themselves — every character produced by the
`to_lowercase` character loop maps to itself and is not capital sigma. -/
theorem mem_toLowercaseChars (D : LowerData)
    (hfix : ∀ c d, d ∈ D.toLower c → D.toLower d = [d] ∧ d ≠ 'Σ')
    (hsl : D.toLower 'σ' = ['σ'])
    (hsf : D.toLower 'ς' = ['ς']) :
    ∀ (l revPre : List Char) (d : Char),
      d ∈ toLowercaseChars D revPre l → D.toLower d = [d] ∧ d ≠ 'Σ' := by
  intro l
  induction l with
  | nil =>
    intro revPre d hd
    exact absurd hd (by simp [toLowercaseChars])
  | cons c rest ih =>
    intro revPre d hd
    unfold toLowercaseChars at hd
    rw [List.mem_append] at hd
    rcases hd with hd | hd
    · by_cases hc : c = 'Σ'
      · rw [if_pos hc] at hd
        unfold mapUppercaseSigma at hd
        split at hd
        · simp only [List.mem_singleton] at hd
          subst hd
          exact ⟨hsf, by decide⟩
        · simp only [List.mem_singleton] at hd
          subst hd
          exact ⟨hsl, by decide⟩
      · rw [if_neg hc] at hd
        exact hfix c d hd
    · exact ih (c :: revPre) d hd

/-- Claim C9: `fold_case` maps `HELLO` to `hello`, and it is idempotent for
every string. The hypotheses are the contract of the external Unicode
character data that `str::to_lowercase` consumes — every character a
lowercase mapping produces maps to exactly itself and is never capital sigma,
the lowercase sigma forms map to themselves, and the mapping's entries for
the letters of `HELLO` — all discharged concretely in the witness. -/
theorem c9_fold_case_idempotent (D : LowerData)
    (hfix : ∀ c d, d ∈ D.toLower c → D.toLower d = [d] ∧ d ≠ 'Σ')
    (hsl : D.toLower 'σ' = ['σ'])
    (hsf : D.toLower 'ς' = ['ς'])
    (hH : D.toLower 'H' = ['h']) (hE : D.toLower 'E' = ['e'])
    (hL : D.toLower 'L' = ['l']) (hO : D.toLower 'O' = ['o']) :
    fold_case D ['H', 'E', 'L', 'L', 'O'] = ['h', 'e', 'l', 'l', 'o'] ∧
    ∀ s : List Char, fold_case D (fold_case D s) = fold_case D s := by
  constructor
  · simp [fold_case, toLowercaseChars, hH, hE, hL, hO]
  · intro s
    unfold fold_case
    exact toLowercaseChars_fixed D (toLowercaseChars D [] s)
      (fun d hd => mem_toLowercaseChars D hfix hsl hsf s [] d hd) []

/-- The witness instance `lowerDataW` satisfies the Unicode-data contract:
every character its lowercase mapping produces maps to itself and is not
capital sigma. -/
theorem lowerDataW_contract :
    ∀ c d, d ∈ lowerDataW.toLower c → lowerDataW.toLower d = [d] ∧ d ≠ 'Σ' := by
  intro c d hd
  simp only [lowerDataW] at hd ⊢
  split_ifs at hd with h1 h2 h3 h4 h5
  · simp only [List.mem_singleton] at hd; subst hd; decide
  · simp only [List.mem_singleton] at hd; subst hd; decide
  · simp only [List.mem_singleton] at hd; subst hd; decide
  · simp only [List.mem_singleton] at hd; subst hd; decide
  · simp only [List.mem_singleton] at hd; subst hd; decide
  · simp only [List.mem_singleton] at hd
    subst hd
    rw [if_neg h1, if_neg h2, if_neg h3, if_neg h4, if_neg h5]
    exact ⟨rfl, h5⟩

/-- Witness for `c9_fold_case_idempotent` at the concrete table `lowerDataW`:
`HELLO` folds to `hello`, and refolding the folded `HΣa` (which exercises the
sigma special case) changes nothing. -/
theorem c9_witness :
    fold_case lowerDataW ['H', 'E', 'L', 'L', 'O']
      = ['h', 'e', 'l', 'l', 'o'] ∧
    fold_case lowerDataW (fold_case lowerDataW ['H', 'Σ', 'a'])
      = fold_case lowerDataW ['H', 'Σ', 'a'] :=
  ⟨(c9_fold_case_idempotent lowerDataW lowerDataW_contract (by decide)
      (by decide) (by decide) (by decide) (by decide) (by decide)).1,
   (c9_fold_case_idempotent lowerDataW lowerDataW_contract (by decide)
      (by decide) (by decide) (by decide) (by decide) (by decide)).2
     ['H', 'Σ', 'a']⟩

/-- Claim C10, counterexample: in Lite mode with an empty pattern and resume
offset 1 over the two-byte text `é`, the offset is at most the text length,
yet `next()` does not return the zero-width range `[1,1)` — it panics
(modelled by `Except.error`) because offset 1 is not a char boundary. -/
theorem c10_counterexample :
    liteEmptyBad.pattern = [] ∧
    liteEmptyBad.last_idx ≤ liteEmptyBad.text.length ∧
    Lite.next liteEmptyBad = Except.error () :=
  ⟨rfl, by decide, rfl⟩

/-- Claim C10, amended: in Lite mode with an empty pattern, every `next()`
call whose resume offset `i` is at most the text's byte length and is a UTF-8
char boundary of the text returns the zero-width range `[i,i)` and leaves the
cursor state (hence the resume offset) unchanged, so repeated calls yield the
same match indefinitely — Lite mode makes no forward-progress guarantee after
a zero-width match, unlike Full mode. At a non-boundary offset at most the
text length, the call panics instead. -/
theorem c10_lite_empty_pattern (r : LiteRegex)
    (hpat : r.pattern = [])
    (hle : r.last_idx ≤ r.text.length)
    (hb : isCharBoundary r.text r.last_idx = true) :
    Lite.next r = Except.ok (some (r.last_idx, r.last_idx), r) := by
  obtain ⟨pat, text, i, ci, low⟩ := r
  simp only at hpat hle hb ⊢
  subst hpat
  unfold Lite.next
  simp only
  rw [if_neg (Nat.not_lt.mpr hle), if_pos hb]
  cases ci
  · simp only [Bool.false_eq_true, if_false, findSub_empty, List.length_nil,
      Nat.add_zero]
  · simp only [if_true, low.empty_ok, findSub_empty,
      List.length_nil, Nat.add_zero]

/-- Witness for `c10_lite_empty_pattern`: the empty pattern over `ab` at
resume offset 1 returns `[1,1)` and leaves the cursor unchanged. -/
theorem c10_witness :
    Lite.next { pattern := [], text := [97, 98], last_idx := 1,
                case_insensitive := false, lower := asciiLowercase }
      = Except.ok (some (1, 1),
          { pattern := [], text := [97, 98], last_idx := 1,
            case_insensitive := false, lower := asciiLowercase }) :=
  c10_lite_empty_pattern _ rfl (by decide) (by decide)
